import Mathlib

/-!
# Verification of the mov_to_mp4 batch conversion orchestrator

A shallow embedding of `src/main.rs` of the mov_to_mp4 repository.
Pure fragments of the Rust program become Lean functions; the effectful
parts (stdin, the file system, spawning the encoder process) are made
explicit by passing an environment that records the results the outside
world would deliver.  File names coming from the operating system are
modelled at the byte level (`List Nat`), since Rust file names are
`OsStr` values that need not be valid UTF-8.
-/

set_option autoImplicit false

namespace MovToMp4

/-- The operating-system selector that the Rust `cfg!(target_os = ...)`
conditional compilation switches on. -/
inductive Platform where
  | macos
  | windows
  | linux
  | other
  deriving DecidableEq, Repr

/-- Embedding of the `AppError` enum of `main.rs` (`FFmpegError`,
`IoError`, `PathError`), each carrying its message string. -/
inductive AppError where
  | FFmpegError : String → AppError
  | IoError : String → AppError
  | PathError : String → AppError
  deriving DecidableEq, Repr

/-! ## UTF-8 decoding

`main.rs` calls `OsStr::to_str` (strict UTF-8 check, lines 112, 114,
190, 211, 231) and `String::from_utf8_lossy` (line 205).  Both are
embedded here over byte lists, following the UTF-8 validation table of
the Rust standard library: a strict decoder returning `Option` and a
lossy decoder that substitutes U+FFFD for each maximal invalid subpart
and is total by construction (it can never fail). -/

/-- A UTF-8 continuation byte, `0x80 ..= 0xBF`. -/
def isCont (b : Nat) : Bool :=
  128 ≤ b && b ≤ 191

/-- Allowed second byte of a three-byte UTF-8 sequence whose first byte
is `b` (`0xE0 ..= 0xEF`), per the Rust validation table. -/
def snd3Ok (b b2 : Nat) : Bool :=
  if b == 224 then 160 ≤ b2 && b2 ≤ 191
  else if b == 237 then 128 ≤ b2 && b2 ≤ 159
  else isCont b2

/-- Allowed second byte of a four-byte UTF-8 sequence whose first byte
is `b` (`0xF0 ..= 0xF4`), per the Rust validation table. -/
def snd4Ok (b b2 : Nat) : Bool :=
  if b == 240 then 144 ≤ b2 && b2 ≤ 191
  else if b == 244 then 128 ≤ b2 && b2 ≤ 143
  else isCont b2

/-- Strict UTF-8 decoding of a byte list, `none` on any invalid input:
the embedding of `OsStr::to_str`/`str::from_utf8`.  The `fuel`
argument makes the recursion structural; every step consumes at least
one byte and the empty list succeeds at any fuel, so
`fuel = l.length` (as supplied by `utf8Decode?`) never runs out and
the `0, _ :: _` clause is unreachable on the inputs actually used. -/
def utf8DecodeAux : Nat → List Nat → Option (List Char)
  | _, [] => some []
  | 0, _ :: _ => none
  | fuel + 1, b :: rest =>
    if b ≤ 127 then
      (utf8DecodeAux fuel rest).map (fun cs => Char.ofNat b :: cs)
    else if 194 ≤ b && b ≤ 223 then
      match rest with
      | b2 :: rest2 =>
        if isCont b2 then
          (utf8DecodeAux fuel rest2).map (fun cs =>
            Char.ofNat ((b - 192) * 64 + (b2 - 128)) :: cs)
        else none
      | [] => none
    else if 224 ≤ b && b ≤ 239 then
      match rest with
      | b2 :: b3 :: rest3 =>
        if snd3Ok b b2 && isCont b3 then
          (utf8DecodeAux fuel rest3).map (fun cs =>
            Char.ofNat ((b - 224) * 4096 + (b2 - 128) * 64 + (b3 - 128)) :: cs)
        else none
      | _ => none
    else if 240 ≤ b && b ≤ 244 then
      match rest with
      | b2 :: b3 :: b4 :: rest4 =>
        if snd4Ok b b2 && isCont b3 && isCont b4 then
          (utf8DecodeAux fuel rest4).map (fun cs =>
            Char.ofNat ((b - 240) * 262144 + (b2 - 128) * 4096
              + (b3 - 128) * 64 + (b4 - 128)) :: cs)
        else none
      | _ => none
    else none

/-- `OsStr::to_str`: strict UTF-8 decoding into a `String`. -/
def utf8Decode? (l : List Nat) : Option String :=
  (utf8DecodeAux l.length l).map String.mk

/-- The Unicode replacement character U+FFFD. -/
def replChar : Char := Char.ofNat 65533

/-- Lossy UTF-8 decoding, following `String::from_utf8_lossy`: each
maximal invalid subpart (1 to 3 bytes, per the `Utf8Error::error_len`
convention of the Rust standard library) becomes one U+FFFD, and an
incomplete trailing sequence becomes one U+FFFD.  Total by
construction: no byte input can make it fail.  The `fuel` argument
makes the recursion structural; every step consumes at least one byte,
so `fuel = l.length` (as supplied by `utf8Lossy`) never runs out and
the `fuel = 0` clause is unreachable on the inputs actually used. -/
def utf8LossyAux : Nat → List Nat → List Char
  | 0, _ => []
  | _ + 1, [] => []
  | fuel + 1, b :: rest =>
    if b ≤ 127 then Char.ofNat b :: utf8LossyAux fuel rest
    else if 194 ≤ b && b ≤ 223 then
      match rest with
      | b2 :: rest2 =>
        if isCont b2 then
          Char.ofNat ((b - 192) * 64 + (b2 - 128)) :: utf8LossyAux fuel rest2
        else replChar :: utf8LossyAux fuel (b2 :: rest2)
      | [] => [replChar]
    else if 224 ≤ b && b ≤ 239 then
      match rest with
      | b2 :: rest2 =>
        if snd3Ok b b2 then
          match rest2 with
          | b3 :: rest3 =>
            if isCont b3 then
              Char.ofNat ((b - 224) * 4096 + (b2 - 128) * 64 + (b3 - 128))
                :: utf8LossyAux fuel rest3
            else replChar :: utf8LossyAux fuel (b3 :: rest3)
          | [] => [replChar]
        else replChar :: utf8LossyAux fuel (b2 :: rest2)
      | [] => [replChar]
    else if 240 ≤ b && b ≤ 244 then
      match rest with
      | b2 :: rest2 =>
        if snd4Ok b b2 then
          match rest2 with
          | b3 :: rest3 =>
            if isCont b3 then
              match rest3 with
              | b4 :: rest4 =>
                if isCont b4 then
                  Char.ofNat ((b - 240) * 262144 + (b2 - 128) * 4096
                    + (b3 - 128) * 64 + (b4 - 128)) :: utf8LossyAux fuel rest4
                else replChar :: utf8LossyAux fuel (b4 :: rest4)
              | [] => [replChar]
            else replChar :: utf8LossyAux fuel (b3 :: rest3)
          | [] => [replChar]
        else replChar :: utf8LossyAux fuel (b2 :: rest2)
      | [] => [replChar]
    else replChar :: utf8LossyAux fuel rest

/-- `String::from_utf8_lossy(bytes).to_string()`. -/
def utf8Lossy (l : List Nat) : String :=
  String.mk (utf8LossyAux l.length l)

/-- The UTF-8 bytes of an ASCII string (used to feed concrete encoder
diagnostics such as "bad codec" into the model). -/
def asciiBytes (s : String) : List Nat :=
  s.data.map Char.toNat

/-! ## Path manipulation

`main.rs` uses `Path::file_name`, `Path::extension`, `Path::join` and
`PathBuf::with_extension`.  Paths are embedded as strings (when known
to be UTF-8) resp. byte lists (raw directory entry names), and the
`std::path` component rules are reproduced on them. -/

/-- Index-from-the-end split of a list at its last `dot` element:
`some (before, after)` when a dot occurs.  Used for the
`file_stem`/`extension` rule of `std::path`. -/
def splitAtLastDot {α : Type} [BEq α] (dot : α) (l : List α) : Option (List α × List α) :=
  match l.reverse.findIdx? (fun c => c == dot) with
  | none => none
  | some k => some (l.take (l.length - 1 - k), l.drop (l.length - k))

/-- `Path::extension` applied to a path whose final component is the
directory-entry name `bytes` (line 110): the part after the last dot,
`none` when there is no dot or the part before the last dot is empty
(hidden files such as `.mov`), `none` for the special names `.` and
`..` (whose `file_name` is not a normal component). -/
def rustExtension (bytes : List Nat) : Option (List Nat) :=
  if bytes == [46, 46] then none
  else
    match splitAtLastDot 46 bytes with
    | none => none
    | some (pre, ext) => if pre == [] then none else some ext

/-- ASCII lowercasing of one byte, as in `eq_ignore_ascii_case`. -/
def asciiLowerByte (b : Nat) : Nat :=
  if 65 ≤ b && b ≤ 90 then b + 32 else b

/-- `extension.eq_ignore_ascii_case("mov")` (line 111). -/
def extMatchesMov (ext : List Nat) : Bool :=
  ext.map asciiLowerByte == [109, 111, 118]

/-- Split a character list at every `/`, keeping empty groups:
the component structure of a relative path. -/
def splitOnSlash : List Char → List (List Char)
  | [] => [[]]
  | c :: t =>
    if c = '/' then [] :: splitOnSlash t
    else
      match splitOnSlash t with
      | [] => [[c]]
      | g :: gs => (c :: g) :: gs

/-- `Path::file_name` on a relative path string: the last component
after dropping empty and `.` components, and `none` when that
component is `..`. -/
def fileName? (p : String) : Option String :=
  let comps := (splitOnSlash p.data).filter (fun c => !(c == [] || c == ['.']))
  match comps.getLast? with
  | none => none
  | some c => if c == ['.', '.'] then none else some (String.mk c)

/-- `Path::join` of a directory name and a file name (both UTF-8). -/
def pathJoin (dir name : String) : String :=
  dir ++ "/" ++ name

/-- `Path::file_stem` of a plain file name: everything before the last
dot, or the whole name when there is no dot or the part before the
last dot is empty. -/
def fileStem (name : String) : String :=
  match splitAtLastDot '.' name.data with
  | none => name
  | some (pre, _) => if pre == [] then name else String.mk pre

/-- `PathBuf::with_extension("mp4")` applied to a plain file name
(line 141): replace the extension by `mp4`. -/
def withExtensionMp4 (name : String) : String :=
  fileStem name ++ ".mp4"

/-- Lines 48-51: the display name of a job, the file name of its path
with the full path as fallback. -/
def displayName (movFilename : String) : String :=
  (fileName? movFilename).getD movFilename

/-! ## File Discovery (`get_all_mov`, lines 98-123)

A directory entry is a raw byte-level file name plus the outcome of the
`stat` that `path.is_file()` performs: `is_file()` returns `false` both
for non-files and when the metadata cannot be read, so the two are
recorded separately.  The listing delivered by `fs::read_dir` is either
an open error or a list of per-entry results, since the `ReadDir`
iterator yields `io::Result<DirEntry>` values. -/

/-- One directory entry as the OS delivers it. -/
structure DirEntry where
  /-- The raw file name bytes (an `OsStr`, not necessarily UTF-8). -/
  nameBytes : List Nat
  /-- Whether the metadata of the entry could be read at all. -/
  statOk : Bool
  /-- Whether the metadata (when readable) says it is a regular file. -/
  kindFile : Bool
  deriving DecidableEq, Repr

/-- `path.is_file()` (line 106): `true` only when the metadata is
readable and reports a regular file; any stat error yields `false`. -/
def entryIsFile (e : DirEntry) : Bool :=
  e.statOk && e.kindFile

/-- Lines 102-120, the body of the discovery loop over the listing:
propagate a per-entry iterator error through `?`, skip non-files, keep
entries whose extension matches `mov` case-insensitively and whose
name is valid UTF-8, and prepend the `mov/` directory.  The
`mov_file.to_str()` call on line 114 is applied to a path joined from
two valid UTF-8 strings, so its error branch cannot fire and the model
pushes the joined string directly. -/
def collectMov : List (Except String DirEntry) → Except AppError (List String)
  | [] => .ok []
  | .error e :: _ => .error (.IoError e)
  | .ok ent :: rest =>
    if entryIsFile ent then
      match rustExtension ent.nameBytes with
      | some ext =>
        if extMatchesMov ext then
          match utf8Decode? ent.nameBytes with
          | some nameStr =>
            (collectMov rest).map (fun l => pathJoin "mov" nameStr :: l)
          | none => collectMov rest
        else collectMov rest
      | none => collectMov rest
    else collectMov rest

/-- `get_all_mov` (lines 98-123): fail when the `mov` directory cannot
be opened, otherwise run the collection loop over the listing. -/
def get_all_mov (dir : Except String (List (Except String DirEntry))) :
    Except AppError (List String) :=
  match dir with
  | .error e => .error (.IoError e)
  | .ok entries => collectMov entries

/-! ## Encoder Invoker (`convert_mov_to_mp4`, lines 130-207) -/

/-- The outcome of the spawned encoder process: exit code (0 meaning
`status.success()`) and captured standard-error bytes. -/
structure ProcOutput where
  exitCode : Int
  stderr : List Nat
  deriving DecidableEq, Repr

/-- The effectful surroundings of one `convert_mov_to_mp4` call:
whether `mp4` already exists, what `fs::create_dir` would return, and
what `Command::new(..).args(..).output()` would return for a given
program and argument list. -/
structure ConvEnv where
  mp4DirExists : Bool
  createDirResult : Except String Unit
  run : String → List String → Except String ProcOutput

/-- Lines 148-156: hardware-acceleration flags selected by the
`cfg!(target_os = ...)` chain. -/
def hw_accel_args : Platform → List String
  | .macos => ["-hwaccel", "videotoolbox"]
  | .windows => ["-hwaccel", "dxva2"]
  | .linux => ["-hwaccel", "vaapi", "-vaapi_device", "/dev/dri/renderD128"]
  | .other => []

/-- Lines 158-191: the argument vector, built by the successive
`extend_from_slice`/`push` calls on `args`. -/
def buildArgs (plat : Platform) (movFilename mp4File : String) : List String :=
  let args : List String := []
  let args := args ++ hw_accel_args plat
  let args := args ++ ["-i", movFilename]
  let args := args ++ ["-c:v", "libx264", "-preset", "faster", "-crf", "23"]
  let args := args ++ ["-c:a", "aac", "-b:a", "128k"]
  let args := args ++ ["-threads", "0"]
  args ++ [mp4File]

/-- `convert_mov_to_mp4` (lines 130-207): create the `mp4` directory
when absent, derive the output path from the file name, run the
encoder, and map a non-zero exit status to `FFmpegError` carrying the
lossily decoded standard error.  The `mp4_file.to_str()` call on line
190 operates on a path assembled from UTF-8 strings, so its
`Invalid MP4 path` branch cannot fire in the model. -/
def convert_mov_to_mp4 (plat : Platform) (env : ConvEnv)
    (movFilename ffmpegPath : String) : Except AppError Unit :=
  match (if env.mp4DirExists then Except.ok () else env.createDirResult) with
  | .error e => .error (.IoError e)
  | .ok _ =>
    match fileName? movFilename with
    | none => .error (.PathError "Invalid filename")
    | some fname =>
      let mp4File := pathJoin "mp4" (withExtensionMp4 fname)
      match env.run ffmpegPath (buildArgs plat movFilename mp4File) with
      | .error e => .error (.IoError e)
      | .ok out =>
        if out.exitCode = 0 then .ok ()
        else .error (.FFmpegError (utf8Lossy out.stderr))

/-! ## Encoder resolution (`get_ffmpeg_path`, lines 209-234) -/

/-- The surroundings of `get_ffmpeg_path`: the result of
`which::which("ffmpeg")` as raw path bytes when found, and whether the
bundled binary exists. -/
structure ResolveEnv where
  whichFfmpeg : Option (List Nat)
  bundledExists : Bool

/-- Lines 216-220: the bundled fallback path, with the Windows
`.exe` suffix. -/
def bundledPath (plat : Platform) : String :=
  if plat = .windows then "bin/ffmpeg/ffmpeg.exe" else "bin/ffmpeg/ffmpeg"

/-- An apostrophe, kept out of string literals. -/
def apos : String := (Char.ofNat 39).toString

/-- Lines 223-228: the not-found message, one format string whose
`{:?}` interpolation quotes the bundled path. -/
def notFoundPre : String :=
  "FFmpeg binary not found. Please ensure it" ++ apos ++
  "s either:\n1. Installed and available in your system PATH, or\n2. Located at "

/-- The full not-found message for a given bundled path. -/
def notFoundMsg (fp : String) : String :=
  notFoundPre ++ "\"" ++ fp ++ "\""

/-- `get_ffmpeg_path` (lines 209-234): prefer the PATH lookup, fall
back to the bundled path, and fail naming both locations when neither
resolves.  The `to_str` on the bundled path (line 231) is applied to a
UTF-8 literal, so its error branch cannot fire in the model. -/
def get_ffmpeg_path (plat : Platform) (env : ResolveEnv) : Except AppError String :=
  match env.whichFfmpeg with
  | some bytes =>
    match utf8Decode? bytes with
    | some s => .ok s
    | none => .error (.PathError "Invalid FFmpeg path")
  | none =>
    if !env.bundledExists then
      .error (.FFmpegError (notFoundMsg (bundledPath plat)))
    else .ok (bundledPath plat)

/-! ## Batch Orchestrator (`main`, lines 24-96) -/

/-- `remove_mov` (lines 236-239), over the result the file system
would deliver for `fs::remove_file`. -/
def remove_mov (removeResult : Except String Unit) : Except AppError Unit :=
  match removeResult with
  | .ok _ => .ok ()
  | .error e => .error (.IoError e)

/-- What one iteration of the job loop does to the world: whether the
job counts as succeeded and whether the source file got deleted. -/
structure JobResult where
  succeeded : Bool
  sourceDeleted : Bool
  deriving DecidableEq, Repr

/-- Lines 68-80, the `match convert_mov_to_mp4(..)` block: on `Ok`,
optionally attempt `remove_mov` discarding its result (`let _ =`), and
count a success; on `Err`, count a failure and leave the source file
alone.  The source is deleted exactly when the removal was attempted
and the underlying file-system operation succeeded. -/
def processJob (deleteAfter : Bool) (conv : Except AppError Unit)
    (removeResult : Except String Unit) : JobResult :=
  match conv with
  | .ok _ =>
    { succeeded := true
      sourceDeleted := deleteAfter && (remove_mov removeResult) matches .ok _ }
  | .error _ => { succeeded := false, sourceDeleted := false }

/-- The success/failure counters of the final summary
(lines 37-38, 90-93). -/
structure Summary where
  success : Nat
  failed : Nat
  deriving DecidableEq, Repr

/-- Lines 73 and 77: the counter update of one loop iteration. -/
def stepSummary (s : Summary) (jr : JobResult) : Summary :=
  if jr.succeeded then { s with success := s.success + 1 }
  else { s with failed := s.failed + 1 }

/-- The job loop (lines 47-86) threading the counters through the
discovered files in order. -/
def runJobsAux (plat : Platform) (convEnv : String → ConvEnv)
    (removeRes : String → Except String Unit) (deleteAfter : Bool)
    (ffmpegPath : String) (s : Summary) : List String → Summary
  | [] => s
  | f :: rest =>
    runJobsAux plat convEnv removeRes deleteAfter ffmpegPath
      (stepSummary s
        (processJob deleteAfter
          (convert_mov_to_mp4 plat (convEnv f) f ffmpegPath)
          (removeRes f)))
      rest

/-- The whole job loop starting from zeroed counters. -/
def runJobs (plat : Platform) (convEnv : String → ConvEnv)
    (removeRes : String → Except String Unit) (deleteAfter : Bool)
    (ffmpegPath : String) (movs : List String) : Summary :=
  runJobsAux plat convEnv removeRes deleteAfter ffmpegPath ⟨0, 0⟩ movs

/-- The set of characters with the Unicode White_Space property, which
`str::trim` strips. -/
def rustWhitespace : List Char :=
  [Char.ofNat 9, Char.ofNat 10, Char.ofNat 11, Char.ofNat 12, Char.ofNat 13,
   ' ', Char.ofNat 133, Char.ofNat 160, Char.ofNat 5760,
   Char.ofNat 8192, Char.ofNat 8193, Char.ofNat 8194, Char.ofNat 8195,
   Char.ofNat 8196, Char.ofNat 8197, Char.ofNat 8198, Char.ofNat 8199,
   Char.ofNat 8200, Char.ofNat 8201, Char.ofNat 8202,
   Char.ofNat 8232, Char.ofNat 8233, Char.ofNat 8239, Char.ofNat 8287,
   Char.ofNat 12288]

/-- `char::is_whitespace`. -/
def isRustWs (c : Char) : Bool :=
  rustWhitespace.contains c

/-- `str::trim`: strip whitespace from both ends. -/
def rustTrim (s : String) : String :=
  String.mk (((s.data.dropWhile isRustWs).reverse.dropWhile isRustWs).reverse)

/-- Single-character lowercasing as `str::to_lowercase` acts on the
ASCII range; outside ASCII the identity is taken, which agrees with
the full Unicode lowering on every string whose lowering could equal
the ASCII words "yes" or "y" compared in `main`. -/
def asciiLowerChar (c : Char) : Char :=
  if 'A' ≤ c && c ≤ 'Z' then Char.ofNat (c.toNat + 32) else c

/-- `str::to_lowercase` restricted as described at `asciiLowerChar`. -/
def rustLower (s : String) : String :=
  String.mk (s.data.map asciiLowerChar)

/-- Line 30: the deletion policy computed from the interactive answer,
`input.trim().to_lowercase() == "yes" || input.trim().to_lowercase() == "y"`. -/
def deleteAfterOf (input : String) : Bool :=
  rustLower (rustTrim input) == "yes" || rustLower (rustTrim input) == "y"

/-- The whole effectful surroundings of one program run. -/
structure Env where
  /-- The combined result of flushing stdout and reading the answer
  line (lines 26-29); either fails through `?`. -/
  stdinLine : Except String String
  platform : Platform
  resolve : ResolveEnv
  /-- The `fs::read_dir("mov")` result. -/
  dirListing : Except String (List (Except String DirEntry))
  /-- Per-source-path surroundings of the encoder call. -/
  convEnv : String → ConvEnv
  /-- Per-source-path result of `fs::remove_file`. -/
  removeRes : String → Except String Unit

/-- `main` (lines 24-96).  The Rust function returns
`Result<(), AppError>` and prints the summary; the model returns the
summary itself as the observable value of a successful run, so
`.ok s` is a zero exit status with final counters `s` and `.error e`
is the aborting non-zero exit.  The progress-bar template `.unwrap()`
on line 44 parses a constant string and cannot fail, and
`handle.join().unwrap()` on line 84 joins a thread whose body cannot
panic. -/
def main (env : Env) : Except AppError Summary :=
  match env.stdinLine with
  | .error e => .error (.IoError e)
  | .ok input =>
    let deleteAfter := deleteAfterOf input
    match get_ffmpeg_path env.platform env.resolve with
    | .error e => .error e
    | .ok ffmpegPath =>
      match get_all_mov env.dirListing with
      | .error e => .error e
      | .ok movFilenames =>
        .ok (runJobs env.platform env.convEnv env.removeRes deleteAfter
          ffmpegPath movFilenames)

/-! ## The per-job event order (lines 47-86)

The orchestrator actions of one loop iteration, in program order, as a
trace.  The ticker thread spawned on line 61 performs its ticks only
between the `startTick` event (the `thread::spawn`) and the `joinTick`
event (`handle.join()` returning after the flag was stored false):
the join synchronizes with the thread exit, so no tick of job N can
occur after job N's `joinTick`. -/

/-- One observable orchestrator action of the loop body. -/
inductive Ev where
  /-- `pb.set_message(..)` (line 53). -/
  | setMessage : String → Ev
  /-- `thread::spawn(..)` of the ticker (line 61). -/
  | startTick : Ev
  /-- The blocking `convert_mov_to_mp4` call (line 68). -/
  | invoke : String → Ev
  /-- The `remove_mov` attempt (line 71). -/
  | removeSrc : String → Ev
  /-- `pb.println` of the success or failure line (lines 74, 78). -/
  | report : String → Bool → Ev
  /-- `should_continue.store(false, ..)` (line 83). -/
  | stopSignal : Ev
  /-- `handle.join().unwrap()` (line 84). -/
  | joinTick : Ev
  /-- `pb.inc(1)` (line 85). -/
  | inc : Ev
  deriving DecidableEq, Repr

/-- The loop body of lines 47-86 as an event trace: message, ticker
start, blocking invocation, the outcome block of the `match`
(optional removal then the printed line), then flag store, join and
increment. -/
def jobTrace (deleteAfter : Bool) (f : String) (conv : Except AppError Unit) :
    List Ev :=
  [Ev.setMessage (displayName f), Ev.startTick, Ev.invoke f] ++
  (match conv with
   | .ok _ =>
     (if deleteAfter then [Ev.removeSrc f] else []) ++
     [Ev.report (displayName f) true]
   | .error _ => [Ev.report (displayName f) false]) ++
  [Ev.stopSignal, Ev.joinTick, Ev.inc]

/-- The trace of the whole loop over the discovered jobs, each paired
with its conversion outcome. -/
def batchTrace (deleteAfter : Bool) :
    List (String × Except AppError Unit) → List Ev
  | [] => []
  | (f, c) :: rest => jobTrace deleteAfter f c ++ batchTrace deleteAfter rest

/-- Whether, scanning a trace left to right, the ticker join comes
before the first printed outcome line: the order the specification
asserts for one job. -/
def joinBeforeReport : List Ev → Bool
  | [] => true
  | Ev.joinTick :: _ => true
  | Ev.report _ _ :: _ => false
  | _ :: t => joinBeforeReport t

/-! ## Characterizations used by the theorems -/

/-- The extension test of lines 110-111 on one entry: the entry has an
extension and it matches `mov` case-insensitively. -/
def hasMovExt (e : DirEntry) : Bool :=
  match rustExtension e.nameBytes with
  | some ext => extMatchesMov ext
  | none => false

/-- The per-entry selection the discovery loop performs, written as one
function: a readable regular file with a matching extension and a
UTF-8-decodable name yields `mov/<name>`, everything else is skipped. -/
def movSelect (e : DirEntry) : Option String :=
  match utf8Decode? e.nameBytes with
  | some n => if entryIsFile e && hasMovExt e then some (pathJoin "mov" n) else none
  | none => none

/-- `needle` occurs contiguously inside `hay` (stated on the
underlying character lists). -/
def occursIn (needle hay : String) : Prop :=
  ∃ p q, hay.data = p ++ needle.data ++ q

/-! # Theorems -/

/-- The counters after running the loop from an arbitrary starting
summary: each iteration adds exactly one to exactly one counter. -/
theorem runJobsAux_total (plat : Platform) (convEnv : String → ConvEnv)
    (removeRes : String → Except String Unit) (deleteAfter : Bool)
    (ffmpegPath : String) :
    ∀ (movs : List String) (s : Summary),
      (runJobsAux plat convEnv removeRes deleteAfter ffmpegPath s movs).success +
        (runJobsAux plat convEnv removeRes deleteAfter ffmpegPath s movs).failed =
      s.success + s.failed + movs.length := by
  intro movs
  induction movs with
  | nil => intro s; simp [runJobsAux]
  | cons f rest ih =>
    intro s
    rw [runJobsAux, ih]
    cases h : (processJob deleteAfter
        (convert_mov_to_mp4 plat (convEnv f) f ffmpegPath) (removeRes f)).succeeded <;>
      simp [stepSummary, h] <;> omega

/-- C1: for every run that reaches the job loop, the final summary
satisfies `succeeded + failed = total` where `total` is the number of
discovered jobs: each loop iteration increments exactly one of the two
counters exactly once. -/
theorem C1_summary_invariant (env : Env) (movs : List String) (s : Summary)
    (hdisc : get_all_mov env.dirListing = .ok movs)
    (hmain : main env = .ok s) :
    s.success + s.failed = movs.length := by
  unfold main at hmain
  cases hst : env.stdinLine with
  | error e => rw [hst] at hmain; exact absurd hmain (by simp)
  | ok input =>
    rw [hst] at hmain
    cases hff : get_ffmpeg_path env.platform env.resolve with
    | error e => rw [hff] at hmain; exact absurd hmain (by simp)
    | ok ffmpegPath =>
      rw [hff, hdisc] at hmain
      have hs : runJobs env.platform env.convEnv env.removeRes
          (deleteAfterOf input) ffmpegPath movs = s := by
        simpa using hmain
      have := runJobsAux_total env.platform env.convEnv env.removeRes
        (deleteAfterOf input) ffmpegPath movs ⟨0, 0⟩
      rw [show runJobsAux env.platform env.convEnv env.removeRes
          (deleteAfterOf input) ffmpegPath ⟨0, 0⟩ movs =
          runJobs env.platform env.convEnv env.removeRes
            (deleteAfterOf input) ffmpegPath movs from rfl, hs] at this
      simpa using this

/-- Witness for C1 on a concrete run with an empty job list. -/
theorem C1_summary_invariant_witness :
    (⟨0, 0⟩ : Summary).success + (⟨0, 0⟩ : Summary).failed =
      ([] : List String).length :=
  C1_summary_invariant
    ⟨.ok "", .linux, ⟨none, true⟩, .ok [],
      fun _ => ⟨true, .ok (), fun _ _ => .ok ⟨0, []⟩⟩, fun _ => .ok ()⟩
    [] ⟨0, 0⟩ rfl rfl

/-- C3: a job counts as succeeded exactly when the conversion
succeeded, independently of the deletion attempt; the source file is
deleted exactly when the conversion succeeded, the deletion policy is
enabled and the file-system removal succeeded; in particular a failed
job never loses its source, deletion disabled never deletes, and a
failed removal neither flips the job to failed (the `succeeded`
equality holds for error removals too) nor aborts the batch
(`processJob` always delivers a result the loop keeps folding over). -/
theorem C3_deletion_policy (d : Bool) (conv : Except AppError Unit)
    (rem : Except String Unit) :
    (processJob d conv rem).succeeded = (conv matches .ok _) ∧
    (processJob d conv rem).sourceDeleted =
      (d && (conv matches .ok _) && (rem matches .ok _)) ∧
    (∀ e, conv = .error e → (processJob d conv rem).sourceDeleted = false) ∧
    (conv = .ok () → d = false → (processJob d conv rem).sourceDeleted = false) := by
  refine ⟨?_, ?_, ?_, ?_⟩
  · cases conv <;> rfl
  · cases conv <;> cases rem <;> cases d <;> rfl
  · intro e he; subst he; rfl
  · intro hc hd; subst hc; subst hd; cases rem <;> rfl

/-- Witness for C3: a successful conversion with deletion enabled and
a failing removal still counts as succeeded and leaves the source. -/
theorem C3_deletion_policy_witness :
    (processJob true (.ok ()) (.error "denied")).succeeded = true ∧
    (processJob true (.ok ()) (.error "denied")).sourceDeleted = false := by
  have h := C3_deletion_policy true (.ok ()) (.error "denied")
  exact ⟨by simpa using h.1, by simpa using h.2.1⟩

/-- C5 counterexample: in the loop body the success line is printed
(line 74) before the stop flag is stored and the ticker joined
(lines 83-84), so the ticker join does not precede the first printed
outcome. -/
theorem C5_counterexample :
    joinBeforeReport (jobTrace false "mov/a.mov" (Except.ok ())) = false := rfl

/-- C5 (amended): the orchestrator prints the outcome line first and
only then signals and joins the ticker; the signal, join and progress
increment are the last three actions of a job, no report or join
occurs in between, and the following job begins with its own
`set_message`, so the ticker of job N is joined before job N+1 sets
its message. -/
theorem C5_stop_order (d : Bool) (f : String) (c : Except AppError Unit)
    (rest : List (String × Except AppError Unit)) :
    batchTrace d ((f, c) :: rest) = jobTrace d f c ++ batchTrace d rest ∧
    (∃ mid, jobTrace d f c =
        [Ev.setMessage (displayName f), Ev.startTick, Ev.invoke f] ++ mid ++
        [Ev.report (displayName f) (c matches .ok _),
         Ev.stopSignal, Ev.joinTick, Ev.inc] ∧
      Ev.joinTick ∉ mid ∧ Ev.stopSignal ∉ mid) ∧
    (∀ f2 c2 rest2, rest = (f2, c2) :: rest2 →
      ∃ tail, batchTrace d rest = Ev.setMessage (displayName f2) :: tail) := by
  refine ⟨rfl, ?_, ?_⟩
  · cases c with
    | ok u =>
      refine ⟨if d then [Ev.removeSrc f] else [], ?_, ?_, ?_⟩ <;>
        cases d <;> simp [jobTrace]
    | error e => exact ⟨[], by simp [jobTrace], by simp, by simp⟩
  · intro f2 c2 rest2 hrest
    subst hrest
    rw [batchTrace]
    unfold jobTrace
    exact ⟨_, rfl⟩

/-- Witness for C5 (amended) on a concrete two-job batch. -/
theorem C5_stop_order_witness :
    ∃ tail, batchTrace false [("mov/b.mov", Except.ok ())] =
      Ev.setMessage "b.mov" :: tail := by
  obtain ⟨t, ht⟩ :=
    (C5_stop_order false "mov/a.mov" (Except.ok ())
      [("mov/b.mov", Except.ok ())]).2.2 "mov/b.mov" (Except.ok ()) [] rfl
  exact ⟨t, by simpa using ht⟩

/-- C6: the argument vector is the concatenation, in this fixed order,
of the platform-selected hardware-acceleration flags (three distinct
non-empty flag sets, empty on unrecognized platforms), the input flag
and source path, the fixed video codec, preset and quality flags, the
fixed audio codec and bitrate flags, the automatic thread-count flag,
and the output path last. -/
theorem C6_argument_order (plat : Platform) (mov mp4 : String) :
    buildArgs plat mov mp4 =
      hw_accel_args plat ++ ["-i", mov] ++
      ["-c:v", "libx264", "-preset", "faster", "-crf", "23"] ++
      ["-c:a", "aac", "-b:a", "128k"] ++ ["-threads", "0"] ++ [mp4] ∧
    hw_accel_args .macos = ["-hwaccel", "videotoolbox"] ∧
    hw_accel_args .windows = ["-hwaccel", "dxva2"] ∧
    hw_accel_args .linux =
      ["-hwaccel", "vaapi", "-vaapi_device", "/dev/dri/renderD128"] ∧
    hw_accel_args .other = [] ∧
    (buildArgs plat mov mp4).getLast? = some mp4 := by
  refine ⟨by simp [buildArgs], rfl, rfl, rfl, rfl, ?_⟩
  cases plat <;> rfl

/-- C7: once stdin, encoder resolution and discovery have succeeded,
the run returns the summary of the loop (a zero exit status) whatever
the per-job outcomes are, since the loop turns every per-job error
into a counted failure; and an aborting run can only come from one of
the three preconditions. -/
theorem C7_exit_success (env : Env) :
    (∀ input ffmpeg movs,
      env.stdinLine = .ok input →
      get_ffmpeg_path env.platform env.resolve = .ok ffmpeg →
      get_all_mov env.dirListing = .ok movs →
      main env = .ok (runJobs env.platform env.convEnv env.removeRes
        (deleteAfterOf input) ffmpeg movs)) ∧
    (∀ e, main env = .error e →
      (∃ m, env.stdinLine = .error m) ∨
      get_ffmpeg_path env.platform env.resolve = .error e ∨
      get_all_mov env.dirListing = .error e) := by
  constructor
  · intro input ffmpeg movs h1 h2 h3
    unfold main
    rw [h1, h2, h3]
  · intro e hmain
    unfold main at hmain
    cases hst : env.stdinLine with
    | error m => exact Or.inl ⟨m, rfl⟩
    | ok input =>
      rw [hst] at hmain
      cases hff : get_ffmpeg_path env.platform env.resolve with
      | error m =>
        rw [hff] at hmain
        have hme : m = e := by simpa using hmain
        subst hme
        exact Or.inr (Or.inl rfl)
      | ok ffmpeg =>
        rw [hff] at hmain
        cases hd : get_all_mov env.dirListing with
        | error m =>
          rw [hd] at hmain
          have hme : m = e := by simpa using hmain
          subst hme
          exact Or.inr (Or.inr rfl)
        | ok movs => rw [hd] at hmain; exact absurd hmain (by simp)

/-- Witness for C7: a batch whose single job fails (non-zero encoder
exit) still completes with a summary, i.e. a zero exit status. -/
theorem C7_exit_success_witness :
    main
      ⟨.ok "no", .linux, ⟨none, true⟩,
        .ok [Except.ok ⟨[97, 46, 109, 111, 118], true, true⟩],
        fun _ => ⟨true, .ok (), fun _ _ => .ok ⟨1, asciiBytes "boom"⟩⟩,
        fun _ => .ok ()⟩ =
      .ok (runJobs .linux
        (fun _ => ⟨true, .ok (), fun _ _ => .ok ⟨1, asciiBytes "boom"⟩⟩)
        (fun _ => .ok ()) false "bin/ffmpeg/ffmpeg" ["mov/a.mov"]) :=
  (C7_exit_success _).1 "no" "bin/ffmpeg/ffmpeg" ["mov/a.mov"] rfl rfl rfl

/-- C9: the deletion policy is enabled exactly when the trimmed,
lowercased interactive answer is "yes" or "y"; the empty answer keeps
the sources, and a disabled policy never deletes any source file. -/
theorem C9_prompt_parsing (input : String) :
    (deleteAfterOf input = true ↔
      (rustLower (rustTrim input) = "yes" ∨ rustLower (rustTrim input) = "y")) ∧
    deleteAfterOf "" = false ∧
    (deleteAfterOf input = false →
      ∀ (conv : Except AppError Unit) (rem : Except String Unit),
        (processJob (deleteAfterOf input) conv rem).sourceDeleted = false) := by
  refine ⟨?_, by decide, ?_⟩
  · simp [deleteAfterOf]
  · intro h conv rem
    rw [h]
    cases conv <;> simp [processJob]

/-- Witness for C9: the unrecognised answer " no" keeps the source of
a successfully converted file. -/
theorem C9_prompt_parsing_witness :
    (processJob (deleteAfterOf " no") (.ok ()) (.ok ())).sourceDeleted = false :=
  (C9_prompt_parsing " no").2.2 (by decide) (.ok ()) (.ok ())

/-- C2: once the output directory step and the file-name extraction
have gone through, a zero exit status of the spawned encoder is
exactly a successful outcome, and any non-zero exit status produces
`FFmpegError` carrying the standard-error bytes decoded permissively;
in particular the ASCII diagnostic "bad codec" round-trips unchanged,
and an invalid byte sequence is replaced by U+FFFD rather than
failing (the lossy decoder is total by construction). -/
theorem C2_exit_status (plat : Platform) (env : ConvEnv)
    (mov fp fname : String) (out : ProcOutput)
    (hdir : env.mp4DirExists = true ∨ env.createDirResult = Except.ok ())
    (hfn : fileName? mov = some fname)
    (hrun : env.run fp
      (buildArgs plat mov (pathJoin "mp4" (withExtensionMp4 fname))) = .ok out) :
    ((out.exitCode = 0 ↔ convert_mov_to_mp4 plat env mov fp = .ok ()) ∧
     (out.exitCode ≠ 0 →
       convert_mov_to_mp4 plat env mov fp =
         .error (.FFmpegError (utf8Lossy out.stderr)))) ∧
    utf8Lossy (asciiBytes "bad codec") = "bad codec" ∧
    utf8Lossy [255] = "�" := by
  have hok : (if env.mp4DirExists then Except.ok () else env.createDirResult) =
      Except.ok () := by
    rcases hdir with h | h
    · simp [h]
    · cases hmp : env.mp4DirExists <;> simp [h]
  refine ⟨?_, by decide, by decide⟩
  unfold convert_mov_to_mp4
  simp only [hok, hfn, hrun]
  by_cases hz : out.exitCode = 0 <;> simp [hz]

/-- Witness for C2: a non-zero exit with stderr "bad codec" yields the
`Failure` outcome with diagnostic "bad codec". -/
theorem C2_exit_status_witness :
    convert_mov_to_mp4 .macos
      ⟨true, .ok (), fun _ _ => .ok ⟨1, asciiBytes "bad codec"⟩⟩
      "mov/a.mov" "ffmpeg" =
      .error (.FFmpegError "bad codec") := by
  have h := (C2_exit_status .macos
    ⟨true, .ok (), fun _ _ => .ok ⟨1, asciiBytes "bad codec"⟩⟩
    "mov/a.mov" "ffmpeg" "a.mov" ⟨1, asciiBytes "bad codec"⟩
    (Or.inl rfl) (by decide) rfl).1.2 (by decide)
  simpa using h

/-- Splitting the long literal of the not-found message around its
"system PATH" words, at the character-list level. -/
theorem notFoundPre_data_split :
    ("s either:\n1. Installed and available in your system PATH, or\n2. Located at " : String).data =
      ("s either:\n1. Installed and available in your " : String).data ++
      ("system PATH" : String).data ++ (", or\n2. Located at " : String).data := by
  decide

/-- C8: encoder resolution returns the PATH lookup result when `which`
finds one, otherwise the bundled path (with its platform-dependent
suffix) when that binary exists, and otherwise fails with a
`FFmpegError` whose message names both attempted locations: the words
"system PATH" and the bundled path both occur in it. -/
theorem C8_resolution_order (plat : Platform) (env : ResolveEnv) :
    (∀ bytes s, env.whichFfmpeg = some bytes → utf8Decode? bytes = some s →
      get_ffmpeg_path plat env = .ok s) ∧
    (env.whichFfmpeg = none → env.bundledExists = true →
      get_ffmpeg_path plat env = .ok (bundledPath plat)) ∧
    (env.whichFfmpeg = none → env.bundledExists = false →
      get_ffmpeg_path plat env =
        .error (.FFmpegError (notFoundMsg (bundledPath plat))) ∧
      occursIn "system PATH" (notFoundMsg (bundledPath plat)) ∧
      occursIn (bundledPath plat) (notFoundMsg (bundledPath plat))) := by
  refine ⟨?_, ?_, ?_⟩
  · intro bytes s hw hd
    unfold get_ffmpeg_path
    simp only [hw, hd]
  · intro hw hb
    unfold get_ffmpeg_path
    simp [hw, hb]
  · intro hw hb
    refine ⟨?_, ?_, ?_⟩
    · unfold get_ffmpeg_path
      simp [hw, hb]
    · refine ⟨("FFmpeg binary not found. Please ensure it" : String).data ++
        apos.data ++
        ("s either:\n1. Installed and available in your " : String).data,
        (", or\n2. Located at " : String).data ++ ("\"" : String).data ++
        (bundledPath plat).data ++ ("\"" : String).data, ?_⟩
      show (notFoundPre ++ "\"" ++ bundledPath plat ++ "\"").data = _
      rw [show notFoundPre = "FFmpeg binary not found. Please ensure it" ++ apos ++
          "s either:\n1. Installed and available in your system PATH, or\n2. Located at "
          from rfl]
      rw [String.data_append, String.data_append, String.data_append,
        String.data_append, String.data_append, notFoundPre_data_split]
      simp only [List.append_assoc]
    · refine ⟨notFoundPre.data ++ ("\"" : String).data, ("\"" : String).data, ?_⟩
      show (notFoundPre ++ "\"" ++ bundledPath plat ++ "\"").data = _
      rw [String.data_append, String.data_append, String.data_append]

/-- One step of the discovery loop on a successfully delivered entry,
phrased through the selection function `movSelect`. -/
theorem collectMov_cons_ok (e : DirEntry) (l : List (Except String DirEntry)) :
    collectMov (Except.ok e :: l) =
      match movSelect e with
      | some p => (collectMov l).map (fun r => p :: r)
      | none => collectMov l := by
  simp only [collectMov, movSelect, hasMovExt]
  cases hf : entryIsFile e
  · cases hd : utf8Decode? e.nameBytes <;> simp
  · simp only [hf, Bool.true_and, if_true]
    cases hx : rustExtension e.nameBytes
    · cases hd : utf8Decode? e.nameBytes <;> simp
    · rename_i ext
      cases hm : extMatchesMov ext
      · cases hd : utf8Decode? e.nameBytes <;> simp [hm]
      · cases hd : utf8Decode? e.nameBytes <;> simp [hm]

/-- Discovery over a listing whose entries are all delivered without
iterator errors selects exactly the `movSelect` hits, in order. -/
theorem collectMov_allOk (entries : List DirEntry) :
    collectMov (entries.map Except.ok) = .ok (entries.filterMap movSelect) := by
  induction entries with
  | nil => rfl
  | cons e rest ih =>
    rw [List.map_cons, collectMov_cons_ok, List.filterMap_cons]
    cases hsel : movSelect e <;> simp [ih, Except.map]

/-- A per-entry iterator error makes discovery fail with `IoError`,
wherever it occurs in the listing. -/
theorem collectMov_entry_error (entries : List DirEntry) (msg : String)
    (rest : List (Except String DirEntry)) :
    collectMov (entries.map Except.ok ++ Except.error msg :: rest) =
      .error (.IoError msg) := by
  induction entries with
  | nil => rfl
  | cons e t ih =>
    rw [List.map_cons, List.cons_append, collectMov_cons_ok]
    cases movSelect e <;> simp [ih, Except.map]

/-- C4 counterexample: a readable regular file whose extension matches
`mov` case-insensitively but whose name bytes are not valid UTF-8 is
silently skipped by discovery, so the result is not exactly the set of
matching regular files. -/
theorem C4_counterexample :
    entryIsFile ⟨[255, 46, 109, 111, 118], true, true⟩ = true ∧
    hasMovExt ⟨[255, 46, 109, 111, 118], true, true⟩ = true ∧
    get_all_mov (Except.ok [Except.ok ⟨[255, 46, 109, 111, 118], true, true⟩]) =
      Except.ok [] :=
  ⟨rfl, by decide, rfl⟩

/-- C4 (amended): discovery returns, in order, exactly the entries
that are readable regular files whose extension matches `mov`
case-insensitively AND whose name is valid UTF-8, each as
`mov/<name>`; entries whose metadata cannot be read (`statOk = false`)
are silently skipped like other non-files; discovery fails only when
the directory itself cannot be opened or the directory stream yields a
per-entry read error. -/
theorem C4_discovery (msg : String) (entries : List DirEntry) :
    get_all_mov (.error msg) = .error (.IoError msg) ∧
    get_all_mov (.ok (entries.map Except.ok)) =
      .ok (entries.filterMap movSelect) ∧
    (∀ e : DirEntry, e.statOk = false → movSelect e = none) ∧
    (∀ rest, get_all_mov (.ok (entries.map Except.ok ++ .error msg :: rest)) =
      .error (.IoError msg)) := by
  refine ⟨rfl, collectMov_allOk entries, ?_, fun rest => ?_⟩
  · intro e hstat
    unfold movSelect
    have hf : entryIsFile e = false := by
      unfold entryIsFile
      rw [hstat]
      rfl
    cases utf8Decode? e.nameBytes <;> simp [hf]
  · exact collectMov_entry_error entries msg rest

/-- Witness for C4 (amended) on a one-entry directory. -/
theorem C4_discovery_witness :
    get_all_mov (Except.ok [Except.ok ⟨[97, 46, 109, 111, 118], true, true⟩]) =
      Except.ok ["mov/a.mov"] ∧
    movSelect ⟨[97, 46, 109, 111, 118], false, true⟩ = none := by
  constructor
  · exact (C4_discovery "x" [⟨[97, 46, 109, 111, 118], true, true⟩]).2.1
  · exact (C4_discovery "x" []).2.2.1 ⟨[97, 46, 109, 111, 118], false, true⟩ rfl

/-- A successful strict decode of a non-empty byte list is non-empty:
every clause of the decoder that can succeed on a cons input prepends
a character. -/
theorem utf8DecodeAux_cons_ne_nil (fuel b : Nat) (rest : List Nat) (cs : List Char)
    (h : utf8DecodeAux (fuel + 1) (b :: rest) = some cs) : cs ≠ [] := by
  intro hnil
  subst hnil
  rw [utf8DecodeAux.eq_def] at h
  simp only [] at h
  repeat' split at h
  all_goals
    first
    | exact Option.noConfusion h
    | (rw [Option.map_eq_some'] at h
       obtain ⟨a, -, ha⟩ := h
       exact List.cons_ne_nil _ _ ha)

/-- `to_str` of a non-empty byte name never yields the empty string. -/
theorem utf8Decode?_ne_empty (l : List Nat) (s : String) (hl : l ≠ [])
    (h : utf8Decode? l = some s) : s ≠ "" := by
  cases l with
  | nil => exact absurd rfl hl
  | cons b rest =>
    unfold utf8Decode? at h
    rw [Option.map_eq_some'] at h
    obtain ⟨cs, hcs, hmk⟩ := h
    intro hs
    rw [List.length_cons] at hcs
    exact utf8DecodeAux_cons_ne_nil rest.length b rest cs hcs
      (by simpa using congrArg String.data (hmk.trans hs))

/-- A slash-free character list is one single path component. -/
theorem splitOnSlash_no_slash (t : List Char) (h : ('/') ∉ t) :
    splitOnSlash t = [t] := by
  induction t with
  | nil => rfl
  | cons c t ih =>
    have hc : ¬(c = '/') := fun hc => h (hc ▸ List.mem_cons_self c t)
    have ht : ('/') ∉ t := fun m => h (List.mem_cons_of_mem c m)
    rw [splitOnSlash, if_neg hc, ih ht]

/-- Splitting a path at the slash after its slash-free first
component. -/
theorem splitOnSlash_append (u t : List Char) (h : ('/') ∉ u) :
    splitOnSlash (u ++ '/' :: t) = u :: splitOnSlash t := by
  induction u with
  | nil => simp [splitOnSlash]
  | cons c u ih =>
    have hc : ¬(c = '/') := fun hc => h (hc ▸ List.mem_cons_self c u)
    have hu : ('/') ∉ u := fun m => h (List.mem_cons_of_mem c m)
    rw [List.cons_append, splitOnSlash, if_neg hc, ih hu]

/-- `Path::file_name` recovers a well-formed file name from the joined
path `mov/<name>`. -/
theorem fileName?_pathJoin (s : String) (hslash : ('/') ∉ s.data)
    (hne : s ≠ "") (hdot : s ≠ ".") (hdd : s ≠ "..") :
    fileName? (pathJoin "mov" s) = some s := by
  have hdata : (("mov" : String) ++ "/" ++ s).data =
      ['m', 'o', 'v'] ++ '/' :: s.data := by
    rw [String.data_append, String.data_append]
    rfl
  have h1 : (s.data == ([] : List Char)) = false := by
    rw [beq_eq_false_iff_ne]
    intro hx
    exact hne (String.ext (hx.trans rfl))
  have h2 : (s.data == (['.'] : List Char)) = false := by
    rw [beq_eq_false_iff_ne]
    intro hx
    exact hdot (String.ext (hx.trans rfl))
  have h3 : (s.data == (['.', '.'] : List Char)) = false := by
    rw [beq_eq_false_iff_ne]
    intro hx
    exact hdd (String.ext (hx.trans rfl))
  unfold fileName? pathJoin
  rw [hdata, splitOnSlash_append _ _ (by decide), splitOnSlash_no_slash s.data hslash]
  simp [List.filter, h1, h2, h3]

/-- Once the file name of a job extracts, a `convert_mov_to_mp4` error
is an `IoError` (directory creation or spawning) or an `FFmpegError`
(non-zero exit): the `Invalid filename` path error is unreachable. -/
theorem convert_error_cases (plat : Platform) (ce : ConvEnv)
    (mov fp fname : String) (hfn : fileName? mov = some fname) (e : AppError)
    (h : convert_mov_to_mp4 plat ce mov fp = .error e) :
    (∃ m, e = .IoError m) ∨ (∃ m, e = .FFmpegError m) := by
  unfold convert_mov_to_mp4 at h
  rw [hfn] at h
  cases hdir : (if ce.mp4DirExists then Except.ok () else ce.createDirResult) with
  | error m =>
    rw [hdir] at h
    simp at h
    exact Or.inl ⟨m, h.symm⟩
  | ok u =>
    rw [hdir] at h
    simp only [] at h
    cases hrun : ce.run fp
        (buildArgs plat mov (pathJoin "mp4" (withExtensionMp4 fname))) with
    | error m =>
      rw [hrun] at h
      simp at h
      exact Or.inl ⟨m, h.symm⟩
    | ok out =>
      rw [hrun] at h
      by_cases hz : out.exitCode = 0
      · simp [hz] at h
      · simp [hz] at h
        exact Or.inr ⟨utf8Lossy out.stderr, h.symm⟩

/-- C10: every path produced by discovery is `mov/` joined with a
non-empty UTF-8 file name; extracting the file name in the invoker
recovers that name, so the `Invalid filename` branch is unreachable
for discovered jobs, and any per-job failure is an `IoError`
(directory creation or process spawn) or an `FFmpegError` (non-zero
encoder exit).  The hypothesis records what the operating system
guarantees about directory-entry names: they contain no path
separator and are never `.` or `..`. -/
theorem C10_discovered_paths (entries : List DirEntry) (l : List String) (p : String)
    (hw : ∀ e ∈ entries, ∀ s, utf8Decode? e.nameBytes = some s →
      ('/') ∉ s.data ∧ s ≠ "." ∧ s ≠ "..")
    (hdisc : get_all_mov (.ok (entries.map Except.ok)) = .ok l)
    (hp : p ∈ l) :
    ∃ s, p = pathJoin "mov" s ∧ s ≠ "" ∧ fileName? p = some s ∧
      ∀ (plat : Platform) (ce : ConvEnv) (fp : String),
        convert_mov_to_mp4 plat ce p fp ≠ .error (.PathError "Invalid filename") ∧
        ∀ e, convert_mov_to_mp4 plat ce p fp = .error e →
          (∃ m, e = .IoError m) ∨ (∃ m, e = .FFmpegError m) := by
  have hcoll : collectMov (entries.map Except.ok) = .ok l := hdisc
  rw [collectMov_allOk] at hcoll
  have hl : l = entries.filterMap movSelect := by
    have := hcoll
    injection this with h
    exact h.symm
  subst hl
  rw [List.mem_filterMap] at hp
  obtain ⟨en, hen, hsel⟩ := hp
  unfold movSelect at hsel
  cases hd : utf8Decode? en.nameBytes with
  | none => rw [hd] at hsel; exact absurd hsel (by simp)
  | some n =>
    rw [hd] at hsel
    simp only [] at hsel
    by_cases hc : (entryIsFile en && hasMovExt en) = true
    · rw [if_pos hc] at hsel
      have hpn : p = pathJoin "mov" n := by
        injection hsel with h
        exact h.symm
      have hc2 : entryIsFile en = true ∧ hasMovExt en = true := by simpa using hc
      have hmov : hasMovExt en = true := hc2.2
      have hnb : en.nameBytes ≠ [] := by
        intro hnil
        unfold hasMovExt at hmov
        rw [hnil] at hmov
        exact absurd hmov (by decide)
      have hne : n ≠ "" := utf8Decode?_ne_empty en.nameBytes n hnb hd
      obtain ⟨hslash, hdot, hdd⟩ := hw en hen n hd
      have hfn : fileName? p = some n := by
        rw [hpn]
        exact fileName?_pathJoin n hslash hne hdot hdd
      refine ⟨n, hpn, hne, hfn, ?_⟩
      intro plat ce fp
      constructor
      · intro habs
        rcases convert_error_cases plat ce p fp n hfn _ habs with ⟨m, hm⟩ | ⟨m, hm⟩ <;>
          exact absurd hm (by simp)
      · intro e he
        exact convert_error_cases plat ce p fp n hfn e he
    · rw [if_neg hc] at hsel
      exact absurd hsel (by simp)

/-- Witness for C10 on a one-entry directory containing `a.mov`. -/
theorem C10_discovered_paths_witness :
    ∃ s, ("mov/a.mov" : String) = pathJoin "mov" s ∧ s ≠ "" ∧
      fileName? "mov/a.mov" = some s ∧
      ∀ (plat : Platform) (ce : ConvEnv) (fp : String),
        convert_mov_to_mp4 plat ce "mov/a.mov" fp ≠
          .error (.PathError "Invalid filename") ∧
        ∀ e, convert_mov_to_mp4 plat ce "mov/a.mov" fp = .error e →
          (∃ m, e = .IoError m) ∨ (∃ m, e = .FFmpegError m) := by
  refine C10_discovered_paths [⟨[97, 46, 109, 111, 118], true, true⟩] _ "mov/a.mov"
    ?_ rfl ?_
  · intro e he s hs
    have hee : e = ⟨[97, 46, 109, 111, 118], true, true⟩ := by simpa using he
    subst hee
    have hav : utf8Decode? [97, 46, 109, 111, 118] = some "a.mov" := rfl
    have hsv : s = "a.mov" := by
      have h2 := hav.symm.trans hs
      injection h2 with h3
      exact h3.symm
    subst hsv
    refine ⟨by decide, by decide, by decide⟩
  · show ("mov/a.mov" : String) ∈
      List.filterMap movSelect [⟨[97, 46, 109, 111, 118], true, true⟩]
    have : List.filterMap movSelect [(⟨[97, 46, 109, 111, 118], true, true⟩ : DirEntry)] =
        ["mov/a.mov"] := rfl
    rw [this]
    exact List.mem_singleton.mpr rfl

/-- Witness for C8: on Linux with no PATH hit and no bundled binary,
resolution fails with the message naming both locations. -/
theorem C8_resolution_order_witness :
    get_ffmpeg_path .linux ⟨none, false⟩ =
      .error (.FFmpegError (notFoundMsg "bin/ffmpeg/ffmpeg")) ∧
    occursIn "system PATH" (notFoundMsg "bin/ffmpeg/ffmpeg") ∧
    occursIn "bin/ffmpeg/ffmpeg" (notFoundMsg "bin/ffmpeg/ffmpeg") :=
  (C8_resolution_order .linux ⟨none, false⟩).2.2 rfl rfl

end MovToMp4
